import Mathlib

set_option maxHeartbeats 1000000
set_option maxRecDepth 8000

/-!
Shallow embedding of the trade-recording bot (src/main.py) and verification of
the specification claims about it.

Conventions of the embedding:
* a spreadsheet grid is a list of rows of cell text; missing cells read as the
  empty string, matching `gspread` semantics;
* all row/column coordinates are 1-based, as in the source;
* Python floats are modelled as rationals;
* Python `set` + `sorted` is modelled as `dedup` + a stable sort under the
  code-point order on strings (Python compares strings by code point);
* a raised exception that aborts an operation is modelled by an `Option`/sum
  result (`none` or a dedicated constructor).
-/

abbrev Grid := List (List String)

def emptyStr : String := ""

/-- Cell lookup: `values[r-1][c-1]`, empty string when out of range (1-based). -/
def cellText (g : Grid) (r c : ℕ) : String := (g.getD (r - 1) []).getD (c - 1) emptyStr

/-- Pad a list to length at least `n` with element `x`. -/
def padTo {α : Type} (l : List α) (n : ℕ) (x : α) : List α :=
  l ++ List.replicate (n - l.length) x

/-- Write `v` into cell `(r, c)`, extending the grid as a live sheet store does. -/
def setCell (g : Grid) (r c : ℕ) (v : String) : Grid :=
  (padTo g r []).set (r - 1)
    ((padTo ((padTo g r []).getD (r - 1) []) c emptyStr).set (c - 1) v)

/-- Substring test on char lists (Python `needle in hay`). -/
def hasSub (needle : List Char) : List Char → Bool
  | [] => needle.isEmpty
  | c :: rest => needle.isPrefixOf (c :: rest) || hasSub needle rest

/-- Label normalization from `_norm_label`: strip, lowercase, remove all
whitespace.  Since every whitespace char is removed at the end, the initial
strip is absorbed by the filter. -/
def norm_label (s : String) : List Char :=
  (s.toList.map Char.toLower).filter (fun ch => !ch.isWhitespace)

def kwDate1 : String := "날짜"
def kwDate2 : String := "체결일자"
def kwLoc : String := "loc"
def kwAvg : String := "평단"
def kwHigh : String := "고가"
def kwLocAvg : String := "loc평단"
def kwLocHigh : String := "loc고가"
def kwTotalQty : String := "총수량"

def is_date_label (s : String) : Bool :=
  let n := norm_label s
  hasSub kwDate1.toList n || hasSub kwDate2.toList n

def is_loc_avg_label (s : String) : Bool :=
  let n := norm_label s
  hasSub kwLocAvg.toList n || (hasSub kwLoc.toList n && hasSub kwAvg.toList n)

def is_loc_high_label (s : String) : Bool :=
  let n := norm_label s
  hasSub kwLocHigh.toList n || (hasSub kwLoc.toList n && hasSub kwHigh.toList n)

def is_total_qty_label (s : String) : Bool :=
  hasSub kwTotalQty.toList (norm_label s)

structure SDate where
  y : ℕ
  m : ℕ
  d : ℕ
deriving DecidableEq

def isLeapYear (yr : ℕ) : Bool := (yr % 4 == 0 && yr % 100 != 0) || yr % 400 == 0

def daysInMonth (yr mo : ℕ) : ℕ :=
  if mo = 2 then (if isLeapYear yr then 29 else 28)
  else if mo = 4 ∨ mo = 6 ∨ mo = 9 ∨ mo = 11 then 30
  else 31

/-- Calendar validity as enforced by `datetime.datetime` (year ≥ MINYEAR = 1). -/
def validDate (yr mo dy : ℕ) : Bool :=
  1 ≤ yr && 1 ≤ mo && mo ≤ 12 && 1 ≤ dy && dy ≤ daysInMonth yr mo

def digitsToNat (cs : List Char) : ℕ := cs.foldl (fun n c => n * 10 + (c.toNat - 48)) 0

/-- Consume a maximal digit run whose length lies in `[lo, hi]`. -/
def parseDigits (lo hi : ℕ) (cs : List Char) : Option (ℕ × List Char) :=
  let ds := cs.takeWhile Char.isDigit
  if lo ≤ ds.length ∧ ds.length ≤ hi then some (digitsToNat ds, cs.dropWhile Char.isDigit)
  else none

def parseSep (sep : Char) : List Char → Option (List Char)
  | [] => none
  | c :: rest => if c = sep then some rest else none

/-- Shape `\d{4} sep \d{1,2} sep \d{1,2}` shared by the strptime date formats and
the final regex of `normalize_date_value`. -/
def parseYMDCore (sep : Char) (cs : List Char) : Option (ℕ × ℕ × ℕ × List Char) := do
  let (yr, cs1) ← parseDigits 4 4 cs
  let cs2 ← parseSep sep cs1
  let (mo, cs3) ← parseDigits 1 2 cs2
  let cs4 ← parseSep sep cs3
  let (dy, cs5) ← parseDigits 1 2 cs4
  pure (yr, mo, dy, cs5)

/-- One date-only strptime format (`%Y<sep>%m<sep>%d`), full-string match. -/
def tryFmtDate (sep : Char) (cs : List Char) : Option SDate :=
  match parseYMDCore sep cs with
  | some (yr, mo, dy, rest) =>
    if rest = [] ∧ validDate yr mo dy then some ⟨yr, mo, dy⟩ else none
  | none => none

def parseTimeCore (cs : List Char) : Option (List Char) := do
  let (hh, cs1) ← parseDigits 1 2 cs
  let cs2 ← parseSep ':' cs1
  let (mi, cs3) ← parseDigits 1 2 cs2
  let cs4 ← parseSep ':' cs3
  let (ss, cs5) ← parseDigits 1 2 cs4
  if hh ≤ 23 ∧ mi ≤ 59 ∧ ss ≤ 59 then pure cs5 else none

/-- The `%Y-%m-%d %H:%M:%S` strptime format; the format-string blank matches one
or more whitespace characters. -/
def tryFmtDateTime (cs : List Char) : Option SDate :=
  match parseYMDCore '-' cs with
  | some (yr, mo, dy, rest) =>
    match rest with
    | [] => none
    | c :: tail =>
      if c.isWhitespace then
        match parseTimeCore (tail.dropWhile Char.isWhitespace) with
        | some rest2 => if rest2 = [] ∧ validDate yr mo dy then some ⟨yr, mo, dy⟩ else none
        | none => none
      else none
  | none => none

def trimChars (cs : List Char) : List Char :=
  ((cs.dropWhile Char.isWhitespace).reverse.dropWhile Char.isWhitespace).reverse

/-- Result of `normalize_date_value`: `crash` models the uncaught `ValueError`
raised by `datetime(...)` in the final regex branch on a calendar-invalid date. -/
inductive DateParse where
  | crash : DateParse
  | parsed : Option SDate → DateParse
deriving DecidableEq

/-- Embedding of `normalize_date_value`: trim, try the four strptime formats in
order, then the `^(\d{4})-(\d{1,2})-(\d{1,2})$` regex branch whose
`datetime(...)` constructor raises on an invalid date. -/
def normalize_date_value (value : String) : DateParse :=
  let v := trimChars value.toList
  if v = [] then .parsed none
  else
    match tryFmtDate '-' v <|> tryFmtDateTime v <|> tryFmtDate '/' v <|> tryFmtDate '.' v with
    | some dt => .parsed (some dt)
    | none =>
      match parseYMDCore '-' v with
      | some (yr, mo, dy, rest) =>
        if rest = [] then (if validDate yr mo dy then .parsed (some ⟨yr, mo, dy⟩) else .crash)
        else .parsed none
      | none => .parsed none

/-- Python `not str(raw or "").strip()`. -/
def isBlankCell (s : String) : Bool := trimChars s.toList = []

/-- The first loop of `find_or_create_date_row`: scan the snapshot rows below the
header for a cell parsing to the target date.  `none` models the crash of
`normalize_date_value`; `some none` means no row matched. -/
def scanDateRow (snap : Grid) (dateCol : ℕ) (target : SDate) : ℕ → ℕ → Option (Option ℕ)
  | 0, _ => some none
  | fuel + 1, r =>
    match normalize_date_value (cellText snap r dateCol) with
    | .crash => none
    | .parsed p =>
      if p = some target then some (some r) else scanDateRow snap dateCol target fuel (r + 1)

def firstBlankAux (live : Grid) (dateCol : ℕ) : ℕ → ℕ → ℕ
  | 0, r => r
  | fuel + 1, r =>
    if isBlankCell (cellText live r dateCol) then r else firstBlankAux live dateCol fuel (r + 1)

/-- The second loop of `find_or_create_date_row`: first row at or below `start`
whose date cell is blank on the live sheet.  Any row beyond the sheet data is
blank, so fuel `live.length + 1` always suffices when `start ≥ 1`. -/
def firstBlankRow (live : Grid) (dateCol start : ℕ) : ℕ :=
  firstBlankAux live dateCol (live.length + 1) start

/-- Embedding of `find_or_create_date_row`.  `live` is the sheet reached by
`ws.acell`/`ws.update`, `snap` the snapshot passed in as `values`.  Returns the
row, the live grid after the call, and whether a write was performed; `none`
models the uncaught parse crash. -/
def find_or_create_date_row (live snap : Grid) (header_row date_col : ℕ)
    (target : SDate) (target_text : String) : Option (ℕ × Grid × Bool) :=
  match scanDateRow snap date_col target (snap.length - header_row) (header_row + 1) with
  | none => none
  | some (some r) => some (r, live, false)
  | some none =>
    let r := firstBlankRow live date_col (header_row + 1)
    some (r, setCell live r date_col target_text, true)

def maxColOf (values : Grid) : ℕ := (values.map List.length).foldl Nat.max 0

/-- Rows `range(r, min(r + 2, row_count) + 1)` of the phase-1 label window. -/
def windowRows (r rowCount : ℕ) : List ℕ := List.range' r (min (r + 2) rowCount + 1 - r)

/-- Columns `range(c + 1, min(c + 14, max_col) + 1)` of the phase-1 label window. -/
def windowCols (c maxCol : ℕ) : List ℕ :=
  List.range' (c + 1) (min (c + 14) maxCol + 1 - (c + 1))

/-- One step of the guarded first-match update for the two zone labels. -/
def locFoldStep (values : Grid) (rr : ℕ) (st : Option (ℕ × ℕ) × Option (ℕ × ℕ)) (cc : ℕ) :
    Option (ℕ × ℕ) × Option (ℕ × ℕ) :=
  let cell := cellText values rr cc
  let la := if st.1 = none ∧ is_loc_avg_label cell then some (rr, cc) else st.1
  let lh := if st.2 = none ∧ is_loc_high_label cell then some (rr, cc) else st.2
  (la, lh)

def locFoldCols (values : Grid) (rr : ℕ) (ccs : List ℕ)
    (st : Option (ℕ × ℕ) × Option (ℕ × ℕ)) : Option (ℕ × ℕ) × Option (ℕ × ℕ) :=
  ccs.foldl (locFoldStep values rr) st

/-- The phase-1 window scan: after each window row, return as soon as both zone
labels have been seen (`header_row = max(r, loc_avg_row, loc_high_row)`). -/
def phase1ScanRows (values : Grid) (r c maxCol : ℕ) :
    List ℕ → Option (ℕ × ℕ) × Option (ℕ × ℕ) → Option (ℕ × ℕ × ℕ × ℕ)
  | [], _ => none
  | rr :: rest, st =>
    let st2 := locFoldCols values rr (windowCols c maxCol) st
    match st2.1, st2.2 with
    | some (laR, laC), some (lhR, lhC) => some (max r (max laR lhR), c, laC, lhC)
    | _, _ => phase1ScanRows values r c maxCol rest st2

def phase1Cols (values : Grid) (maxCol r : ℕ) : List ℕ → Option (ℕ × ℕ × ℕ × ℕ)
  | [] => none
  | c :: cs =>
    if is_date_label (cellText values r c) then
      match phase1ScanRows values r c maxCol (windowRows r values.length) (none, none) with
      | some res => some res
      | none => phase1Cols values maxCol r cs
    else phase1Cols values maxCol r cs

def phase1Rows (values : Grid) (maxCol : ℕ) : List ℕ → Option (ℕ × ℕ × ℕ × ℕ)
  | [] => none
  | r :: rs =>
    match phase1Cols values maxCol r (List.range' 1 (values.getD (r - 1) []).length) with
    | some res => some res
    | none => phase1Rows values maxCol rs

/-- Date-first scan (step 1 of `find_header_row_and_columns`). -/
def phase1 (values : Grid) : Option (ℕ × ℕ × ℕ × ℕ) :=
  phase1Rows values (maxColOf values) (List.range' 1 values.length)

/-- First pass of the fallback: whole-grid first occurrence of each zone label,
breaking once both are found (checked after each row). -/
def phase2FindLocs (values : Grid) :
    List ℕ → Option (ℕ × ℕ) × Option (ℕ × ℕ) → Option (ℕ × ℕ) × Option (ℕ × ℕ)
  | [], st => st
  | r :: rs, st =>
    let st2 := locFoldCols values r (List.range' 1 (values.getD (r - 1) []).length) st
    if st2.1.isSome ∧ st2.2.isSome then st2 else phase2FindLocs values rs st2

def rowDateScan (values : Grid) (rr : ℕ) : Option ℕ :=
  (List.range' 1 (values.getD (rr - 1) []).length).find?
    (fun c => is_date_label (cellText values rr c))

/-- Label-first fallback (step 2 of `find_header_row_and_columns`). -/
def phase2 (values : Grid) : Option (ℕ × ℕ × ℕ × ℕ) :=
  match phase2FindLocs values (List.range' 1 values.length) (none, none) with
  | (some (laR, laC), some (lhR, lhC)) =>
    [laR, laR - 1, laR + 1, lhR, lhR - 1, lhR + 1].findSome? (fun rr =>
      if 1 ≤ rr ∧ rr ≤ values.length then
        (rowDateScan values rr).map (fun c => (max rr (max laR lhR), c, laC, lhC))
      else none)
  | _ => none

/-- Embedding of `find_header_row_and_columns`: returns
`(header_row, date_col, loc_avg_col, loc_high_col)`, `none` for a raised
`ValueError` (empty sheet or anchor not found). -/
def find_header_row_and_columns (values : Grid) : Option (ℕ × ℕ × ℕ × ℕ) :=
  if values = [] then none
  else
    match phase1 values with
    | some res => some res
    | none => phase2 values

/-- Embedding of `find_total_qty_column`: look for the total-quantity label on
the header row and its two neighbours, else fall back to `loc_high_col + 4`. -/
def find_total_qty_column (values : Grid) (header_row loc_high_col : ℕ) : ℕ :=
  match [header_row, header_row - 1, header_row + 1].findSome? (fun rr =>
      if 1 ≤ rr ∧ rr ≤ values.length then
        (List.range' 1 (values.getD (rr - 1) []).length).find?
          (fun c => is_total_qty_label (cellText values rr c))
      else none) with
  | some c => c
  | none => loc_high_col + 4

inductive CellValue where
  | num : ℚ → CellValue
  | text : String → CellValue
deriving DecidableEq

/-- One `ws.update` of a single cell (1-based row/column). -/
structure CellWrite where
  row : ℕ
  col : ℕ
  val : CellValue
deriving DecidableEq

def buySide : String := "매수"
def bidSide : String := "bid"
def ordTypePrice : String := "price"
def btc : String := "BTC"

/-- Zone choice of the brokerage path (`if msg.fill_price <= avg_price`). -/
def brokerage_zone_col (fill_price avg_price : ℚ) (loc_avg_col loc_high_col : ℕ) : ℕ :=
  if fill_price ≤ avg_price then loc_avg_col else loc_high_col

/-- Zone choice of the exchange single-write path (`if fill.price > avg_price`). -/
def upbit_single_zone_col (price avg_price : ℚ) (loc_avg_col loc_high_col : ℕ) : ℕ :=
  if price > avg_price then loc_high_col else loc_avg_col

/-- Ledger-relevant outcome of processing one fill: early return (`skipped`),
raised anchor `ValueError` (`layoutError`), uncaught date-parse crash
(`parseCrash`), or a successful pass recording the resolved total-quantity
column, the target row and the cell writes performed, in order. -/
inductive FillOutcome where
  | skipped : FillOutcome
  | layoutError : FillOutcome
  | parseCrash : FillOutcome
  | written : ℕ → ℕ → List CellWrite → FillOutcome
deriving DecidableEq

/-- Embedding of the ledger-relevant core of `process_fill_to_sheet` (the
brokerage path).  `avg_price` is the value read from cell R6. -/
def process_fill_to_sheet (values : Grid) (trade_side : String)
    (fill_price fill_qty avg_price : ℚ) (target : SDate) (target_text : String) : FillOutcome :=
  if trade_side ≠ buySide then .skipped
  else if fill_qty < 0 then .skipped
  else
    match find_header_row_and_columns values with
    | none => .layoutError
    | some (header_row, date_col, loc_avg_col, loc_high_col) =>
      let total_qty_col := find_total_qty_column values header_row loc_high_col
      match find_or_create_date_row values values header_row date_col target target_text with
      | none => .parseCrash
      | some (target_row, _, wrote) =>
        let price_col := brokerage_zone_col fill_price avg_price loc_avg_col loc_high_col
        .written total_qty_col target_row
          ((if wrote then [⟨target_row, date_col, .text target_text⟩] else []) ++
            [⟨target_row, price_col, .num fill_price⟩,
             ⟨target_row, price_col + 1, .num fill_qty⟩])

/-- Embedding of the ledger-relevant core of `process_upbit_fill_to_sheet`.
`half_round` is the value read from cell B3, `avg_price` the value from R6. -/
def process_upbit_fill_to_sheet (values : Grid) (side : String) (price qty amount : ℚ)
    (half_round avg_price : ℚ) (target : SDate) (target_text : String) : FillOutcome :=
  if side ≠ bidSide then .skipped
  else
    match find_header_row_and_columns values with
    | none => .layoutError
    | some (header_row, date_col, loc_avg_col, loc_high_col) =>
      let total_qty_col := find_total_qty_column values header_row loc_high_col
      let ratio_half : ℚ := if half_round > 0 then amount / half_round else 0
      let ratio_full : ℚ := if half_round > 0 then amount / (half_round * 2) else 0
      if 0.8 ≤ ratio_full ∧ ratio_full ≤ 1.2 then
        match find_or_create_date_row values values header_row date_col target target_text with
        | none => .parseCrash
        | some (target_row, _, wrote) =>
          .written total_qty_col target_row
            ((if wrote then [⟨target_row, date_col, .text target_text⟩] else []) ++
              [⟨target_row, loc_avg_col, .num price⟩,
               ⟨target_row, loc_avg_col + 1, .num (qty / 2)⟩,
               ⟨target_row, loc_high_col, .num price⟩,
               ⟨target_row, loc_high_col + 1, .num (qty / 2)⟩])
      else if 0.8 ≤ ratio_half ∧ ratio_half ≤ 1.2 then
        match find_or_create_date_row values values header_row date_col target target_text with
        | none => .parseCrash
        | some (target_row, _, wrote) =>
          let price_col := upbit_single_zone_col price avg_price loc_avg_col loc_high_col
          .written total_qty_col target_row
            ((if wrote then [⟨target_row, date_col, .text target_text⟩] else []) ++
              [⟨target_row, price_col, .num price⟩,
               ⟨target_row, price_col + 1, .num qty⟩])
      else .skipped

/-- Specification-side rendering of the exchange write rule, following claim C1:
dual-write when `H > 0` and `0.8 ≤ a/(2H) ≤ 1.2`; otherwise single-write of the
full quantity when `H > 0` and `0.8 ≤ a/H ≤ 1.2`, into the zone chosen by
comparing the price with the reference average price (tie to zoneA); otherwise
skip with no ledger cell written.  Anchor and row resolution are shared with the
code embedding, as the claim takes them as given. -/
def process_upbit_fill_to_sheet_spec (values : Grid) (side : String) (price qty amount : ℚ)
    (half_round avg_price : ℚ) (target : SDate) (target_text : String) : FillOutcome :=
  if side ≠ bidSide then .skipped
  else
    match find_header_row_and_columns values with
    | none => .layoutError
    | some (header_row, date_col, loc_avg_col, loc_high_col) =>
      let total_qty_col := find_total_qty_column values header_row loc_high_col
      if half_round > 0 ∧ 0.8 ≤ amount / (2 * half_round) ∧ amount / (2 * half_round) ≤ 1.2 then
        match find_or_create_date_row values values header_row date_col target target_text with
        | none => .parseCrash
        | some (target_row, _, wrote) =>
          .written total_qty_col target_row
            ((if wrote then [⟨target_row, date_col, .text target_text⟩] else []) ++
              [⟨target_row, loc_avg_col, .num price⟩,
               ⟨target_row, loc_avg_col + 1, .num (qty / 2)⟩,
               ⟨target_row, loc_high_col, .num price⟩,
               ⟨target_row, loc_high_col + 1, .num (qty / 2)⟩])
      else if half_round > 0 ∧ 0.8 ≤ amount / half_round ∧ amount / half_round ≤ 1.2 then
        match find_or_create_date_row values values header_row date_col target target_text with
        | none => .parseCrash
        | some (target_row, _, wrote) =>
          let price_col := if price ≤ avg_price then loc_avg_col else loc_high_col
          .written total_qty_col target_row
            ((if wrote then [⟨target_row, date_col, .text target_text⟩] else []) ++
              [⟨target_row, price_col, .num price⟩,
               ⟨target_row, price_col + 1, .num qty⟩])
      else .skipped

/-- Python `market.split("-")`. -/
def splitOnDash : List Char → List (List Char)
  | [] => [[]]
  | c :: rest =>
    let parts := splitOnDash rest
    if c = '-' then [] :: parts
    else
      match parts with
      | [] => [[c]]
      | p :: ps => (c :: p) :: ps

/-- Base asset of a market code: `market.split("-")[-1].upper()` when a dash is
present, else `market.upper()` (from `fetch_upbit_fills_for_date`). -/
def upbit_base_asset (market : String) : List Char :=
  let cs := market.toList
  if cs.contains '-' then ((splitOnDash cs).getLastD []).map Char.toUpper
  else cs.map Char.toUpper

/-- The market/asset filter block of `fetch_upbit_fills_for_date` (lines
376-389): BTC-only enforcement first, then the configurable market filter with
its asset-filter override. -/
def upbit_market_passes (market market_filter market_asset_filter : String) : Bool :=
  let base_asset := upbit_base_asset market
  if base_asset ≠ btc.toList then false
  else if market_filter ≠ emptyStr ∧ market ≠ market_filter then
    (if market_asset_filter ≠ emptyStr then
      (if base_asset ≠ market_asset_filter.toList.map Char.toUpper then false else true)
    else false)
  else true

/-- Price/amount derivation and positivity discards of
`fetch_upbit_fills_for_date` (lines 395-427), for a trade that already passed
the date/market/side filters.  Returns `(price, amount)` or `none` when the
trade is discarded. -/
def upbit_derive_fill (side ord_type : String) (qty executed_funds raw_price : ℚ) :
    Option (ℚ × ℚ) :=
  if qty ≤ 0 then none
  else
    let amount :=
      if side = bidSide ∧ ord_type = ordTypePrice ∧ raw_price > 0 then raw_price
      else if executed_funds > 0 then executed_funds
      else if raw_price > 0 then raw_price * qty
      else 0
    if amount ≤ 0 then none
    else
      let price :=
        if side = bidSide ∧ ord_type = ordTypePrice then amount / qty
        else if raw_price > 0 then raw_price
        else amount / qty
      some (price, amount)

/-- Modelled from claim C8's wording: a market-style buy order's amount is the
exchange-reported total spend (`raw_price`) unconditionally, with unit price
`amount / qty`; other orders take the executed funds when positive, else
`price × qty`; non-positive quantity or derived amount is discarded.  The unit
price of non-market orders, which the claim leaves unspecified, follows the
code. -/
def upbit_derive_fill_claimed (side ord_type : String) (qty executed_funds raw_price : ℚ) :
    Option (ℚ × ℚ) :=
  if side = bidSide ∧ ord_type = ordTypePrice then
    let amount := raw_price
    if qty ≤ 0 ∨ amount ≤ 0 then none else some (amount / qty, amount)
  else
    let amount := if executed_funds > 0 then executed_funds else raw_price * qty
    if qty ≤ 0 ∨ amount ≤ 0 then none
    else some ((if raw_price > 0 then raw_price else amount / qty), amount)

/-- The amended C8 rule: a market-style buy takes the reported spend only when
it is positive, otherwise falling back to executed funds; its unit price is
always `amount / qty`.  Other orders take executed funds when positive, else
`price × qty` when the reported price is positive, else are discarded.
Non-positive quantity or derived amount is discarded. -/
def upbit_derive_fill_amended (side ord_type : String) (qty executed_funds raw_price : ℚ) :
    Option (ℚ × ℚ) :=
  if side = bidSide ∧ ord_type = ordTypePrice then
    let amount :=
      if raw_price > 0 then raw_price
      else if executed_funds > 0 then executed_funds
      else 0
    if qty ≤ 0 ∨ amount ≤ 0 then none else some (amount / qty, amount)
  else
    let amount :=
      if executed_funds > 0 then executed_funds
      else if raw_price > 0 then raw_price * qty
      else 0
    if qty ≤ 0 ∨ amount ≤ 0 then none
    else some ((if raw_price > 0 then raw_price else amount / qty), amount)

/-- Filter-plus-derivation pipeline for one fetched trade row (the date filter,
which precedes these checks, is taken as already passed). -/
def upbit_row_to_fill (market market_filter market_asset_filter side ord_type : String)
    (qty executed_funds raw_price : ℚ) : Option (ℚ × ℚ) :=
  if !upbit_market_passes market market_filter market_asset_filter then none
  else if side ≠ bidSide then none
  else upbit_derive_fill side ord_type qty executed_funds raw_price

structure UFill where
  fill_id : String
  trade_time : ℕ
  price : ℚ
  qty : ℚ
  amount : ℚ
deriving DecidableEq

/-- Code-point comparison on strings, the order Python's `sorted` uses. -/
def charListLe : List Char → List Char → Bool
  | [], _ => true
  | _ :: _, [] => false
  | a :: as, b :: bs =>
    if a.toNat < b.toNat then true else if b.toNat < a.toNat then false else charListLe as bs

def strLe (a b : String) : Bool := charListLe a.toList b.toList

/-- Insert an element behind every existing element that is `le` it, the step of
a stable insertion sort. -/
def insertLe {α : Type} (le : α → α → Bool) (x : α) : List α → List α
  | [] => [x]
  | y :: ys => if le y x then y :: insertLe le x ys else x :: y :: ys

/-- Stable sort (Python's `sorted` is stable). -/
def sortBy {α : Type} (le : α → α → Bool) (l : List α) : List α :=
  l.foldl (fun acc x => insertLe le x acc) []

def fillTimeLe (a b : UFill) : Bool := decide (a.trade_time ≤ b.trade_time)

def lastN {α : Type} (n : ℕ) (l : List α) : List α := l.drop (l.length - n)

/-- Dedup/seen-set core of `run_upbit_sync_once` (lines 752-778): select the
fills to forward, process them in ascending trade-time order, then persist
`list(sorted(processed_ids))[-1000:]`.  Python's `set` plus `sorted` is the
sorted list of the distinct identifiers. -/
def run_upbit_sync_once_core (fills : List UFill) (seenIds : List String)
    (explicit_date : Bool) : List UFill × List String :=
  let new_fills :=
    if explicit_date then fills else fills.filter (fun f => !(seenIds.contains f.fill_id))
  let ordered := sortBy fillTimeLe new_fills
  let processed_ids := (seenIds ++ ordered.map UFill.fill_id).dedup
  (ordered, lastN 1000 (sortBy strLe processed_ids))

def specWindowRows (r rowCount numRows : ℕ) : List ℕ :=
  (List.range' r numRows).filter (fun rr => rr ≤ rowCount)

def specWindowCols (c maxCol numCols : ℕ) : List ℕ :=
  (List.range' (c + 1) numCols).filter (fun cc => cc ≤ maxCol)

/-- The claim-side label window at a date match `(r, c)`: `numRows` rows at or
after `r` and `numCols` columns after `c`, clamped to the grid, in row-major
order. -/
def specWindowCells (values : Grid) (r c numRows numCols : ℕ) : List (ℕ × ℕ) :=
  (specWindowRows r values.length numRows).flatMap
    (fun rr => (specWindowCols c (maxColOf values) numCols).map (fun cc => (rr, cc)))

/-- First cell of the window satisfying a label class, independently per class. -/
def specFindLabel (values : Grid) (p : String → Bool) (cells : List (ℕ × ℕ)) :
    Option (ℕ × ℕ) :=
  cells.find? (fun rc => p (cellText values rc.1 rc.2))

/-- Combine the two independent label matches: succeed only when both classes
matched, with `header_row = max(r, zoneA row, zoneB row)`. -/
def combineLoc (r c : ℕ) : Option (ℕ × ℕ) → Option (ℕ × ℕ) → Option (ℕ × ℕ × ℕ × ℕ)
  | some (laR, laC), some (lhR, lhC) => some (max r (max laR lhR), c, laC, lhC)
  | _, _ => none

/-- Claim-side date-first probe: first match per class over the window; if both
classes match, the header row is the maximum of `r` and the two match rows. -/
def phase1SpecTry (values : Grid) (r c numRows numCols : ℕ) : Option (ℕ × ℕ × ℕ × ℕ) :=
  let cells := specWindowCells values r c numRows numCols
  combineLoc r c (specFindLabel values is_loc_avg_label cells)
    (specFindLabel values is_loc_high_label cells)

def phase1SpecCols (values : Grid) (r numRows numCols : ℕ) : List ℕ → Option (ℕ × ℕ × ℕ × ℕ)
  | [] => none
  | c :: cs =>
    if is_date_label (cellText values r c) then
      match phase1SpecTry values r c numRows numCols with
      | some res => some res
      | none => phase1SpecCols values r numRows numCols cs
    else phase1SpecCols values r numRows numCols cs

def phase1SpecRows (values : Grid) (numRows numCols : ℕ) : List ℕ → Option (ℕ × ℕ × ℕ × ℕ)
  | [] => none
  | r :: rs =>
    match phase1SpecCols values r numRows numCols (List.range' 1 (values.getD (r - 1) []).length) with
    | some res => some res
    | none => phase1SpecRows values numRows numCols rs

/-- Claim-side rendering of the date-first phase, parametrized by the window
size (claim C4 states 2 rows and 13 columns; the code uses 3 and 14). -/
def phase1Spec (values : Grid) (numRows numCols : ℕ) : Option (ℕ × ℕ × ℕ × ℕ) :=
  phase1SpecRows values numRows numCols (List.range' 1 values.length)

def dateText20250102 : String := "2025-01-02"

/-- C2 fixture: date label at (5,2), zoneA label at (5,4), zoneB label at (6,4). -/
def c2grid : Grid :=
  [[], [], [], [],
   [emptyStr, r"날짜", emptyStr, r"LOC평단"],
   [emptyStr, emptyStr, emptyStr, r"LOC고가"]]

/-- C2 fixture with the zoneB label moved to (6,8). -/
def c2gridDistinct : Grid :=
  [[], [], [], [],
   [emptyStr, r"날짜", emptyStr, r"LOC평단"],
   [emptyStr, emptyStr, emptyStr, emptyStr, emptyStr, emptyStr, emptyStr, r"LOC고가"]]

/-- C4 fixture: for the date label at (1,1) the zoneB label sits 14 columns to
the right and the zoneA label 2 rows below; a second well-formed header starts
at row 4. -/
def c4grid : Grid :=
  [[r"날짜", emptyStr, emptyStr, emptyStr, emptyStr, emptyStr, emptyStr, emptyStr, emptyStr,
    emptyStr, emptyStr, emptyStr, emptyStr, emptyStr, r"LOC고가"],
   [emptyStr],
   [emptyStr, r"LOC평단"],
   [r"날짜", r"LOC평단", r"LOC고가"]]

/-- C9 fixture: a valid anchor header with no total-quantity label anywhere. -/
def c9grid : Grid := [[r"날짜", r"LOC평단", r"LOC고가"]]

/-- C3 fixture: a header-only sheet, and the sheet after the first call has
created the date row below it. -/
def c3grid1 : Grid := [[r"날짜"]]

def c3grid2 : Grid := [[r"날짜"], [r"2025-01-02"]]

def wfillA : UFill := ⟨r"a", 1, 1, 1, 1⟩

def wfillB : UFill := ⟨r"b", 2, 1, 1, 1⟩

def mktKrwEth : String := "KRW-ETH"

def assetEth : String := "ETH"

theorem mem_insertLe {α : Type} (le : α → α → Bool) (x a : α) (l : List α) :
    a ∈ insertLe le x l ↔ a = x ∨ a ∈ l := by
  induction l with
  | nil => simp [insertLe]
  | cons y ys ih =>
    simp only [insertLe]
    by_cases h : le y x = true
    · rw [if_pos h]
      simp only [List.mem_cons, ih]
      tauto
    · rw [if_neg h]
      simp only [List.mem_cons]

theorem mem_sortBy_fold {α : Type} (le : α → α → Bool) (a : α) (l : List α) :
    ∀ acc : List α, (a ∈ l.foldl (fun acc x => insertLe le x acc) acc ↔ a ∈ acc ∨ a ∈ l) := by
  induction l with
  | nil => intro acc; simp
  | cons x xs ih =>
    intro acc
    rw [List.foldl_cons, ih, mem_insertLe]
    simp only [List.mem_cons]
    tauto

theorem mem_sortBy {α : Type} (le : α → α → Bool) (a : α) (l : List α) :
    a ∈ sortBy le l ↔ a ∈ l := by
  unfold sortBy
  rw [mem_sortBy_fold]
  simp

theorem pairwise_insertLe {α : Type} {le : α → α → Bool}
    (htot : ∀ a b, le a b = true ∨ le b a = true)
    (htrans : ∀ a b c, le a b = true → le b c = true → le a c = true)
    (x : α) (l : List α) (h : l.Pairwise (fun a b => le a b = true)) :
    (insertLe le x l).Pairwise (fun a b => le a b = true) := by
  induction l with
  | nil => simp [insertLe]
  | cons y ys ih =>
    rw [List.pairwise_cons] at h
    obtain ⟨hy, hys⟩ := h
    simp only [insertLe]
    by_cases hyx : le y x = true
    · rw [if_pos hyx]
      rw [List.pairwise_cons]
      refine ⟨?_, ih hys⟩
      intro z hz
      rcases (mem_insertLe le x z ys).mp hz with rfl | hz2
      · exact hyx
      · exact hy z hz2
    · rw [if_neg hyx]
      have hxy : le x y = true := by
        rcases htot x y with h1 | h1
        · exact h1
        · exact absurd h1 hyx
      rw [List.pairwise_cons]
      refine ⟨?_, ?_⟩
      · intro z hz
        rcases List.mem_cons.mp hz with rfl | hz2
        · exact hxy
        · exact htrans x y z hxy (hy z hz2)
      · rw [List.pairwise_cons]
        exact ⟨hy, hys⟩

theorem pairwise_sortBy_fold {α : Type} {le : α → α → Bool}
    (htot : ∀ a b, le a b = true ∨ le b a = true)
    (htrans : ∀ a b c, le a b = true → le b c = true → le a c = true)
    (l : List α) :
    ∀ acc : List α, acc.Pairwise (fun a b => le a b = true) →
      (l.foldl (fun acc x => insertLe le x acc) acc).Pairwise (fun a b => le a b = true) := by
  induction l with
  | nil => intro acc h; simpa using h
  | cons x xs ih =>
    intro acc h
    rw [List.foldl_cons]
    exact ih _ (pairwise_insertLe htot htrans x acc h)

theorem pairwise_sortBy {α : Type} {le : α → α → Bool}
    (htot : ∀ a b, le a b = true ∨ le b a = true)
    (htrans : ∀ a b c, le a b = true → le b c = true → le a c = true)
    (l : List α) : (sortBy le l).Pairwise (fun a b => le a b = true) :=
  pairwise_sortBy_fold htot htrans l [] (by simp)

theorem nodup_insertLe {α : Type} (le : α → α → Bool) (x : α) (l : List α)
    (hx : x ∉ l) (h : l.Nodup) : (insertLe le x l).Nodup := by
  induction l with
  | nil => simp [insertLe]
  | cons y ys ih =>
    rw [List.nodup_cons] at h
    obtain ⟨hyys, hys⟩ := h
    have hxy : x ≠ y := fun hh => hx (hh ▸ List.mem_cons_self y ys)
    have hxys : x ∉ ys := fun hh => hx (List.mem_cons_of_mem y hh)
    simp only [insertLe]
    by_cases hyx : le y x = true
    · rw [if_pos hyx]
      rw [List.nodup_cons]
      refine ⟨?_, ih hxys hys⟩
      intro hmem
      rcases (mem_insertLe le x y ys).mp hmem with h1 | h1
      · exact hxy h1.symm
      · exact hyys h1
    · rw [if_neg hyx]
      rw [List.nodup_cons]
      refine ⟨?_, ?_⟩
      · intro hmem
        rcases List.mem_cons.mp hmem with h1 | h1
        · exact hxy h1
        · exact hxys h1
      · rw [List.nodup_cons]
        exact ⟨hyys, hys⟩

theorem nodup_sortBy_fold {α : Type} (le : α → α → Bool) (l : List α) :
    ∀ acc : List α, acc.Nodup → (∀ a ∈ acc, a ∉ l) → l.Nodup →
      (l.foldl (fun acc x => insertLe le x acc) acc).Nodup := by
  induction l with
  | nil => intro acc h _ _; simpa using h
  | cons x xs ih =>
    intro acc hacc hdisj hl
    rw [List.nodup_cons] at hl
    obtain ⟨hxxs, hxs⟩ := hl
    rw [List.foldl_cons]
    apply ih
    · refine nodup_insertLe le x acc ?_ hacc
      intro hmem
      exact (hdisj x hmem) (List.mem_cons_self x xs)
    · intro a hmem
      rcases (mem_insertLe le x a acc).mp hmem with rfl | h1
      · exact hxxs
      · intro h2
        exact hdisj a h1 (List.mem_cons_of_mem x h2)
    · exact hxs

theorem nodup_sortBy {α : Type} (le : α → α → Bool) (l : List α) (h : l.Nodup) :
    (sortBy le l).Nodup :=
  nodup_sortBy_fold le l [] List.nodup_nil (by simp) h

theorem charListLe_total : ∀ a b : List Char, charListLe a b = true ∨ charListLe b a = true := by
  intro a
  induction a with
  | nil => intro b; left; rfl
  | cons x xs ih =>
    intro b
    cases b with
    | nil => right; rfl
    | cons y ys =>
      simp only [charListLe]
      rcases Nat.lt_trichotomy x.toNat y.toNat with h | h | h
      · left
        rw [if_pos h]
      · have h1 : ¬ x.toNat < y.toNat := by omega
        have h2 : ¬ y.toNat < x.toNat := by omega
        rw [if_neg h1, if_neg h2, if_neg h2, if_neg h1]
        exact ih ys
      · right
        rw [if_pos h]

theorem charListLe_trans : ∀ a b c : List Char,
    charListLe a b = true → charListLe b c = true → charListLe a c = true := by
  intro a
  induction a with
  | nil => intro b c _ _; rfl
  | cons x xs ih =>
    intro b c h1 h2
    cases b with
    | nil => simp [charListLe] at h1
    | cons y ys =>
      cases c with
      | nil => simp [charListLe] at h2
      | cons z zs =>
        simp only [charListLe] at h1 h2 ⊢
        by_cases hxy : x.toNat < y.toNat
        · by_cases hyz : y.toNat < z.toNat
          · rw [if_pos (by omega : x.toNat < z.toNat)]
          · rw [if_neg hyz] at h2
            by_cases hzy : z.toNat < y.toNat
            · rw [if_pos hzy] at h2
              simp at h2
            · rw [if_pos (by omega : x.toNat < z.toNat)]
        · rw [if_neg hxy] at h1
          by_cases hyx : y.toNat < x.toNat
          · rw [if_pos hyx] at h1
            simp at h1
          · rw [if_neg hyx] at h1
            by_cases hyz : y.toNat < z.toNat
            · rw [if_pos (by omega : x.toNat < z.toNat)]
            · rw [if_neg hyz] at h2
              by_cases hzy : z.toNat < y.toNat
              · rw [if_pos hzy] at h2
                simp at h2
              · rw [if_neg hzy] at h2
                rw [if_neg (by omega : ¬ x.toNat < z.toNat), if_neg (by omega : ¬ z.toNat < x.toNat)]
                exact ih ys zs h1 h2

theorem strLe_total (a b : String) : strLe a b = true ∨ strLe b a = true :=
  charListLe_total a.toList b.toList

theorem strLe_trans (a b c : String) : strLe a b = true → strLe b c = true → strLe a c = true :=
  charListLe_trans a.toList b.toList c.toList

theorem fillTimeLe_total (a b : UFill) : fillTimeLe a b = true ∨ fillTimeLe b a = true := by
  unfold fillTimeLe
  rcases Nat.le_total a.trade_time b.trade_time with h | h
  · left; exact decide_eq_true h
  · right; exact decide_eq_true h

theorem fillTimeLe_trans (a b c : UFill) :
    fillTimeLe a b = true → fillTimeLe b c = true → fillTimeLe a c = true := by
  unfold fillTimeLe
  intro h1 h2
  exact decide_eq_true (Nat.le_trans (of_decide_eq_true h1) (of_decide_eq_true h2))

theorem length_padTo {α : Type} (l : List α) (n : ℕ) (x : α) :
    (padTo l n x).length = max l.length n := by
  simp [padTo]
  omega

theorem getD_padTo_default {α : Type} (l : List α) (n i : ℕ) (d : α) :
    (padTo l n d).getD i d = l.getD i d := by
  rw [List.getD_eq_getElem?_getD, List.getD_eq_getElem?_getD]
  unfold padTo
  rcases Nat.lt_or_ge i l.length with h | h
  · rw [List.getElem?_append_left h]
  · rw [List.getElem?_append_right h, List.getElem?_replicate, List.getElem?_eq_none h]
    by_cases h2 : i - l.length < n - l.length
    · rw [if_pos h2]
      rfl
    · rw [if_neg h2]

theorem getD_set_self {α : Type} (l : List α) (i : ℕ) (a d : α) (h : i < l.length) :
    (l.set i a).getD i d = a := by
  rw [List.getD_eq_getElem?_getD, List.getElem?_set_self h]
  rfl

theorem getD_set_ne {α : Type} (l : List α) (i j : ℕ) (a d : α) (h : i ≠ j) :
    (l.set i a).getD j d = l.getD j d := by
  rw [List.getD_eq_getElem?_getD, List.getElem?_set_ne h, ← List.getD_eq_getElem?_getD]

theorem length_setCell (g : Grid) (r c : ℕ) (v : String) :
    (setCell g r c v).length = max g.length r := by
  unfold setCell
  rw [List.length_set, length_padTo]

theorem cellText_setCell_self (g : Grid) (r c : ℕ) (v : String) (hr : 1 ≤ r) (hc : 1 ≤ c) :
    cellText (setCell g r c v) r c = v := by
  unfold cellText setCell
  rw [getD_set_self _ _ _ _ (by rw [length_padTo]; omega)]
  rw [getD_set_self _ _ _ _ (by rw [length_padTo]; omega)]

theorem cellText_setCell_ne (g : Grid) (r c r2 c2 : ℕ) (v : String)
    (hr : 1 ≤ r) (hc : 1 ≤ c) (hr2 : 1 ≤ r2) (hc2 : 1 ≤ c2)
    (hne : r2 ≠ r ∨ c2 ≠ c) :
    cellText (setCell g r c v) r2 c2 = cellText g r2 c2 := by
  unfold cellText setCell
  by_cases hrr : r2 = r
  · have hcc : c2 ≠ c := by tauto
    subst hrr
    rw [getD_set_self _ _ _ _ (by rw [length_padTo]; omega)]
    rw [getD_set_ne _ _ _ _ _ (by omega : c - 1 ≠ c2 - 1)]
    rw [getD_padTo_default, getD_padTo_default]
  · rw [getD_set_ne _ _ _ _ _ (by omega : r - 1 ≠ r2 - 1)]
    rw [getD_padTo_default]

theorem cellText_beyond_rows (g : Grid) (r c : ℕ) (h : g.length < r) :
    cellText g r c = emptyStr := by
  unfold cellText
  have hrow : g.getD (r - 1) [] = ([] : List String) := by
    rw [List.getD_eq_getElem?_getD g (r - 1) [],
      List.getElem?_eq_none (by omega : g.length ≤ r - 1)]
    rfl
  rw [hrow]
  rfl

theorem isBlank_emptyStr : isBlankCell emptyStr = true := by decide

theorem normalize_emptyStr : normalize_date_value emptyStr = .parsed none := by decide

theorem firstBlankAux_spec (live : Grid) (dateCol : ℕ) :
    ∀ (fuel r : ℕ), (∃ i, i < fuel ∧ isBlankCell (cellText live (r + i) dateCol) = true) →
      isBlankCell (cellText live (firstBlankAux live dateCol fuel r) dateCol) = true ∧
      r ≤ firstBlankAux live dateCol fuel r ∧
      ∀ j, r ≤ j → j < firstBlankAux live dateCol fuel r →
        isBlankCell (cellText live j dateCol) = false := by
  intro fuel
  induction fuel with
  | zero =>
    intro r h
    obtain ⟨i, hi, _⟩ := h
    omega
  | succ n ih =>
    intro r h
    by_cases hb : isBlankCell (cellText live r dateCol) = true
    · unfold firstBlankAux
      rw [if_pos hb]
      refine ⟨hb, Nat.le_refl r, ?_⟩
      intro j h1 h2
      omega
    · have hb2 : isBlankCell (cellText live r dateCol) = false := by
        cases hq : isBlankCell (cellText live r dateCol)
        · rfl
        · exact absurd hq hb
      unfold firstBlankAux
      rw [if_neg hb]
      obtain ⟨i, hi, hblank⟩ := h
      have hipos : i ≠ 0 := by
        intro hz
        subst hz
        simp only [Nat.add_zero] at hblank
        exact hb hblank
      have hex : ∃ i2, i2 < n ∧ isBlankCell (cellText live (r + 1 + i2) dateCol) = true := by
        refine ⟨i - 1, by omega, ?_⟩
        have : r + 1 + (i - 1) = r + i := by omega
        rw [this]
        exact hblank
      obtain ⟨hres1, hres2, hres3⟩ := ih (r + 1) hex
      refine ⟨hres1, by omega, ?_⟩
      intro j h1 h2
      rcases Nat.eq_or_lt_of_le h1 with rfl | h3
      · exact hb2
      · exact hres3 j (by omega) h2

theorem scanDateRow_none_spec (snap : Grid) (dateCol : ℕ) (target : SDate) :
    ∀ (fuel r : ℕ), scanDateRow snap dateCol target fuel r = some none →
      ∀ i, i < fuel → ∃ p, normalize_date_value (cellText snap (r + i) dateCol) = .parsed p ∧
        p ≠ some target := by
  intro fuel
  induction fuel with
  | zero =>
    intro r _ i hi
    omega
  | succ n ih =>
    intro r hscan i hi
    unfold scanDateRow at hscan
    cases hn : normalize_date_value (cellText snap r dateCol) with
    | crash =>
      rw [hn] at hscan
      exact Option.noConfusion hscan
    | parsed p =>
      rw [hn] at hscan
      have hscan2 : (if p = some target then some (some r)
          else scanDateRow snap dateCol target n (r + 1)) = some none := hscan
      by_cases hp : p = some target
      · rw [if_pos hp] at hscan2
        exact Option.noConfusion (Option.some.inj hscan2)
      · rw [if_neg hp] at hscan2
        cases i with
        | zero => exact ⟨p, by simpa using hn, hp⟩
        | succ j =>
          obtain ⟨p2, hp2, hp3⟩ := ih (r + 1) hscan2 j (by omega)
          refine ⟨p2, ?_, hp3⟩
          have harr : r + 1 + j = r + (j + 1) := by omega
          rw [harr] at hp2
          exact hp2

theorem scanDateRow_found_spec (snap : Grid) (dateCol : ℕ) (target : SDate) :
    ∀ (fuel r i0 : ℕ), i0 < fuel →
      (∀ i, i < i0 → ∃ p, normalize_date_value (cellText snap (r + i) dateCol) = .parsed p ∧
        p ≠ some target) →
      normalize_date_value (cellText snap (r + i0) dateCol) = .parsed (some target) →
      scanDateRow snap dateCol target fuel r = some (some (r + i0)) := by
  intro fuel
  induction fuel with
  | zero =>
    intro r i0 h
    omega
  | succ n ih =>
    intro r i0 hi0 hpre hmatch
    cases i0 with
    | zero =>
      simp only [Nat.add_zero] at hmatch
      unfold scanDateRow
      rw [hmatch]
      show (if (some target : Option SDate) = some target then some (some r)
          else scanDateRow snap dateCol target n (r + 1)) = some (some (r + 0))
      rw [if_pos rfl]
      simp
    | succ j =>
      obtain ⟨p, hp, hne⟩ := hpre 0 (by omega)
      simp only [Nat.add_zero] at hp
      unfold scanDateRow
      rw [hp]
      show (if p = some target then some (some r)
          else scanDateRow snap dateCol target n (r + 1)) = some (some (r + (j + 1)))
      rw [if_neg hne]
      have harr : r + (j + 1) = r + 1 + j := by omega
      rw [harr]
      refine ih (r + 1) j (by omega) ?_ ?_
      · intro i hi
        obtain ⟨p2, hp2, hp3⟩ := hpre (i + 1) (by omega)
        refine ⟨p2, ?_, hp3⟩
        have harr2 : r + 1 + i = r + (i + 1) := by omega
        rw [harr2]
        exact hp2
      · have harr2 : r + 1 + j = r + (j + 1) := by omega
        rw [harr2]
        exact hmatch

/-- C3: `find_or_create_date_row` is idempotent for a fixed grid state and
target date: if a first call on grid `live` (snapshot = live state, as the
caller takes a fresh snapshot) returns row `r1` leaving the grid in state `g1`,
then a second call in succession on the unchanged grid `g1` returns the same
row `r1`, performs no cell write (wrote-flag `false`), and leaves the grid
`g1` untouched.  Requires the written date text to parse back to the target
date, which holds for the `YYYY-MM-DD` text both call sites pass. -/
theorem find_or_create_date_row_idempotent (live : Grid) (header_row date_col : ℕ)
    (target : SDate) (target_text : String)
    (hc : 1 ≤ date_col)
    (ht : normalize_date_value target_text = .parsed (some target))
    (r1 : ℕ) (g1 : Grid) (w1 : Bool)
    (h1 : find_or_create_date_row live live header_row date_col target target_text =
      some (r1, g1, w1)) :
    find_or_create_date_row g1 g1 header_row date_col target target_text =
      some (r1, g1, false) := by
  unfold find_or_create_date_row at h1
  cases hscan : scanDateRow live date_col target (live.length - header_row) (header_row + 1) with
  | none =>
    rw [hscan] at h1
    exact Option.noConfusion h1
  | some found =>
    rw [hscan] at h1
    cases found with
    | some r =>
      have h2 : (some (r, live, false) : Option (ℕ × Grid × Bool)) = some (r1, g1, w1) := h1
      simp only [Option.some.injEq, Prod.mk.injEq] at h2
      obtain ⟨hr, hg, _⟩ := h2
      subst hr
      subst hg
      unfold find_or_create_date_row
      rw [hscan]
    | none =>
      have h2 : (some (firstBlankRow live date_col (header_row + 1),
          setCell live (firstBlankRow live date_col (header_row + 1)) date_col target_text,
          true) : Option (ℕ × Grid × Bool)) = some (r1, g1, w1) := h1
      simp only [Option.some.injEq, Prod.mk.injEq] at h2
      obtain ⟨hr, hg, _⟩ := h2
      have hex : ∃ i, i < live.length + 1 ∧
          isBlankCell (cellText live (header_row + 1 + i) date_col) = true := by
        refine ⟨live.length, by omega, ?_⟩
        rw [cellText_beyond_rows live _ date_col (by omega)]
        exact isBlank_emptyStr
      obtain ⟨hblank1, hge, hmin⟩ :=
        firstBlankAux_spec live date_col (live.length + 1) (header_row + 1) hex
      have hblank1' : isBlankCell
          (cellText live (firstBlankRow live date_col (header_row + 1)) date_col) = true := hblank1
      have hge' : header_row + 1 ≤ firstBlankRow live date_col (header_row + 1) := hge
      have hmin' : ∀ j, header_row + 1 ≤ j → j < firstBlankRow live date_col (header_row + 1) →
          isBlankCell (cellText live j date_col) = false := hmin
      rw [hr] at hblank1' hge' hmin' hg
      have hbound : ∀ j, header_row + 1 ≤ j → j < r1 → j ≤ live.length := by
        intro j hj1 hj2
        by_contra hcon
        have hbj : isBlankCell (cellText live j date_col) = true := by
          rw [cellText_beyond_rows live j date_col (by omega)]
          exact isBlank_emptyStr
        rw [hmin' j hj1 hj2] at hbj
        exact Bool.noConfusion hbj
      have hg1len : g1.length = max live.length r1 := by
        rw [← hg, length_setCell]
      have hr1pos : 1 ≤ r1 := by omega
      have hcellr1 : cellText g1 r1 date_col = target_text := by
        rw [← hg]
        exact cellText_setCell_self live r1 date_col target_text hr1pos hc
      have hcellother : ∀ j, 1 ≤ j → j ≠ r1 →
          cellText g1 j date_col = cellText live j date_col := by
        intro j hj hnej
        rw [← hg]
        exact cellText_setCell_ne live r1 date_col j date_col target_text hr1pos hc hj hc
          (Or.inl hnej)
      have hi0lt : r1 - (header_row + 1) < g1.length - header_row := by
        have hrl : r1 ≤ g1.length := by rw [hg1len]; omega
        omega
      have hpre : ∀ i, i < r1 - (header_row + 1) →
          ∃ p, normalize_date_value (cellText g1 (header_row + 1 + i) date_col) = .parsed p ∧
            p ≠ some target := by
        intro i hi
        have hj : header_row + 1 + i < r1 := by omega
        have hjb : header_row + 1 + i ≤ live.length := hbound _ (by omega) hj
        rw [hcellother (header_row + 1 + i) (by omega) (by omega)]
        exact scanDateRow_none_spec live date_col target (live.length - header_row)
          (header_row + 1) hscan i (by omega)
      have hmatch : normalize_date_value
          (cellText g1 (header_row + 1 + (r1 - (header_row + 1))) date_col) =
            .parsed (some target) := by
        rw [(by omega : header_row + 1 + (r1 - (header_row + 1)) = r1), hcellr1]
        exact ht
      have hkey := scanDateRow_found_spec g1 date_col target (g1.length - header_row)
        (header_row + 1) (r1 - (header_row + 1)) hi0lt hpre hmatch
      rw [(by omega : header_row + 1 + (r1 - (header_row + 1)) = r1)] at hkey
      unfold find_or_create_date_row
      rw [hkey]

theorem optOr_assoc {α : Type} (x y z : Option α) : (x.or y).or z = x.or (y.or z) := by
  cases x <;> rfl

theorem range'_min_filter (m : ℕ) : ∀ (n s : ℕ),
    List.range' s (min n (m + 1 - s)) = (List.range' s n).filter (fun k => decide (k ≤ m)) := by
  intro n
  induction n with
  | zero =>
    intro s
    simp
  | succ k ih =>
    intro s
    rw [List.range'_succ, List.filter_cons]
    by_cases hs : s ≤ m
    · rw [if_pos (by simpa using hs)]
      have hmin : min (k + 1) (m + 1 - s) = min k (m + 1 - (s + 1)) + 1 := by omega
      rw [hmin, List.range'_succ, ih (s + 1)]
    · rw [if_neg (by simpa using hs)]
      have hmin : min (k + 1) (m + 1 - s) = 0 := by omega
      have h0 : m + 1 - (s + 1) = 0 := by omega
      rw [hmin, ← ih (s + 1), h0]
      simp

theorem windowRows_eq_spec (r rowCount : ℕ) : windowRows r rowCount = specWindowRows r rowCount 3 := by
  unfold windowRows specWindowRows
  rw [← range'_min_filter rowCount 3 r]
  congr 1
  omega

theorem windowCols_eq_spec (c maxCol : ℕ) : windowCols c maxCol = specWindowCols c maxCol 14 := by
  unfold windowCols specWindowCols
  rw [← range'_min_filter maxCol 14 (c + 1)]
  congr 1
  omega

theorem locFoldCols_eq (values : Grid) (rr : ℕ) : ∀ (ccs : List ℕ)
    (st : Option (ℕ × ℕ) × Option (ℕ × ℕ)),
    locFoldCols values rr ccs st =
      (st.1.or (specFindLabel values is_loc_avg_label (ccs.map (fun cc => (rr, cc)))),
       st.2.or (specFindLabel values is_loc_high_label (ccs.map (fun cc => (rr, cc))))) := by
  intro ccs
  induction ccs with
  | nil =>
    intro st
    obtain ⟨a, b⟩ := st
    cases a <;> cases b <;> rfl
  | cons cc rest ih =>
    intro st
    obtain ⟨a, b⟩ := st
    have hstep : locFoldCols values rr (cc :: rest) (a, b) =
        locFoldCols values rr rest (locFoldStep values rr (a, b) cc) := rfl
    rw [hstep, ih]
    simp only [List.map_cons, Prod.mk.injEq]
    refine ⟨?_, ?_⟩
    · cases a with
      | some v =>
        have h1 : (locFoldStep values rr (some v, b) cc).1 = some v := by
          simp [locFoldStep]
        rw [h1]
        rfl
      | none =>
        by_cases hP : is_loc_avg_label (cellText values rr cc) = true
        · have h1 : (locFoldStep values rr (none, b) cc).1 = some (rr, cc) := by
            simp [locFoldStep, hP]
          rw [h1]
          unfold specFindLabel
          rw [List.find?_cons_of_pos _ (by simpa using hP)]
          rfl
        · have h1 : (locFoldStep values rr (none, b) cc).1 = none := by
            simp [locFoldStep, hP]
          rw [h1]
          unfold specFindLabel
          rw [List.find?_cons_of_neg _ (by simpa using hP)]
    · cases b with
      | some v =>
        have h1 : (locFoldStep values rr (a, some v) cc).2 = some v := by
          simp [locFoldStep]
        rw [h1]
        rfl
      | none =>
        by_cases hP : is_loc_high_label (cellText values rr cc) = true
        · have h1 : (locFoldStep values rr (a, none) cc).2 = some (rr, cc) := by
            simp [locFoldStep, hP]
          rw [h1]
          unfold specFindLabel
          rw [List.find?_cons_of_pos _ (by simpa using hP)]
          rfl
        · have h1 : (locFoldStep values rr (a, none) cc).2 = none := by
            simp [locFoldStep, hP]
          rw [h1]
          unfold specFindLabel
          rw [List.find?_cons_of_neg _ (by simpa using hP)]

theorem optOr_none_left {α : Type} (x : Option α) : Option.or none x = x := rfl

theorem specFindLabel_append (values : Grid) (p : String → Bool) (l1 l2 : List (ℕ × ℕ)) :
    specFindLabel values p (l1 ++ l2) = (specFindLabel values p l1).or (specFindLabel values p l2) := by
  unfold specFindLabel
  rw [List.find?_append]

theorem phase1ScanRows_eq (values : Grid) (r c maxCol : ℕ) :
    ∀ (rows : List ℕ) (st : Option (ℕ × ℕ) × Option (ℕ × ℕ)),
      (st.1 = none ∨ st.2 = none) →
      phase1ScanRows values r c maxCol rows st =
        combineLoc r c
          (st.1.or (specFindLabel values is_loc_avg_label
            (rows.flatMap (fun rr => (windowCols c maxCol).map (fun cc => (rr, cc))))))
          (st.2.or (specFindLabel values is_loc_high_label
            (rows.flatMap (fun rr => (windowCols c maxCol).map (fun cc => (rr, cc)))))) := by
  intro rows
  induction rows with
  | nil =>
    intro st hst
    obtain ⟨a, b⟩ := st
    rcases hst with h | h
    · have h2 : a = none := h
      subst h2
      cases b <;> rfl
    · have h2 : b = none := h
      subst h2
      cases a <;> rfl
  | cons rr rest ih =>
    intro st _hst
    obtain ⟨a, b⟩ := st
    have hstep : phase1ScanRows values r c maxCol (rr :: rest) (a, b) =
        (match (locFoldCols values rr (windowCols c maxCol) (a, b)).1,
               (locFoldCols values rr (windowCols c maxCol) (a, b)).2 with
         | some (laR, laC), some (lhR, lhC) => some (max r (max laR lhR), c, laC, lhC)
         | _, _ => phase1ScanRows values r c maxCol rest
             (locFoldCols values rr (windowCols c maxCol) (a, b))) := rfl
    rw [hstep, locFoldCols_eq]
    simp only [List.flatMap_cons, specFindLabel_append]
    rw [← optOr_assoc, ← optOr_assoc]
    cases hA : a.or (specFindLabel values is_loc_avg_label
        ((windowCols c maxCol).map (fun cc => (rr, cc)))) with
    | some pa =>
      cases hB : b.or (specFindLabel values is_loc_high_label
          ((windowCols c maxCol).map (fun cc => (rr, cc)))) with
      | some pb =>
        obtain ⟨laR, laC⟩ := pa
        obtain ⟨lhR, lhC⟩ := pb
        rfl
      | none =>
        have hrec := ih (some pa, none) (Or.inr rfl)
        rw [hrec]
    | none =>
      cases hB : b.or (specFindLabel values is_loc_high_label
          ((windowCols c maxCol).map (fun cc => (rr, cc)))) with
      | some pb =>
        have hrec := ih (none, some pb) (Or.inl rfl)
        rw [hrec]
      | none =>
        have hrec := ih (none, none) (Or.inl rfl)
        rw [hrec]

theorem phase1TryDate_eq (values : Grid) (r c : ℕ) :
    phase1ScanRows values r c (maxColOf values) (windowRows r values.length) (none, none) =
      phase1SpecTry values r c 3 14 := by
  rw [phase1ScanRows_eq values r c (maxColOf values) (windowRows r values.length) (none, none)
    (Or.inl rfl)]
  unfold phase1SpecTry specWindowCells
  rw [windowRows_eq_spec, windowCols_eq_spec]
  rfl

theorem phase1Cols_eq (values : Grid) (r : ℕ) :
    ∀ cs : List ℕ, phase1Cols values (maxColOf values) r cs = phase1SpecCols values r 3 14 cs := by
  intro cs
  induction cs with
  | nil => rfl
  | cons c cs ih =>
    show phase1Cols values (maxColOf values) r (c :: cs) = phase1SpecCols values r 3 14 (c :: cs)
    unfold phase1Cols phase1SpecCols
    by_cases hd : is_date_label (cellText values r c) = true
    · rw [if_pos hd, if_pos hd, phase1TryDate_eq values r c]
      cases phase1SpecTry values r c 3 14 with
      | some res => rfl
      | none => exact ih
    · rw [if_neg hd, if_neg hd]
      exact ih

theorem phase1Rows_eq (values : Grid) :
    ∀ rs : List ℕ, phase1Rows values (maxColOf values) rs = phase1SpecRows values 3 14 rs := by
  intro rs
  induction rs with
  | nil => rfl
  | cons r rs ih =>
    show phase1Rows values (maxColOf values) (r :: rs) = phase1SpecRows values 3 14 (r :: rs)
    unfold phase1Rows phase1SpecRows
    rw [phase1Cols_eq values r]
    cases phase1SpecCols values r 3 14 (List.range' 1 (values.getD (r - 1) []).length) with
    | some res => rfl
    | none => exact ih

/-- C4 (amended): the date-first phase of the anchor resolver is equivalent to
the claim-side window search with a window of up to 3 rows at or after the
date match row `r` (rows `r..r+2`) and up to 14 columns after the date match
column `c` (columns `c+1..c+14`), clamped to the grid; the first match per
label class wins independently, and on success the header row is
`max(r, zoneA match row, zoneB match row)`.  The claim's stated window of 2
rows and 13 columns is refuted by `phase1_window_counterexample`. -/
theorem phase1_eq_spec_window (values : Grid) : phase1 values = phase1Spec values 3 14 := by
  unfold phase1 phase1Spec
  exact phase1Rows_eq values (List.range' 1 values.length)

theorem find_total_qty_column_fallback (values : Grid) (header_row loc_high_col : ℕ)
    (hno : values.all (fun row => row.all (fun cell => !is_total_qty_label cell)) = true) :
    find_total_qty_column values header_row loc_high_col = loc_high_col + 4 := by
  unfold find_total_qty_column
  have hrow : ∀ rr : ℕ, (if 1 ≤ rr ∧ rr ≤ values.length then
      (List.range' 1 (values.getD (rr - 1) []).length).find?
        (fun c => is_total_qty_label (cellText values rr c))
      else none) = none := by
    intro rr
    by_cases hr : 1 ≤ rr ∧ rr ≤ values.length
    · rw [if_pos hr]
      rw [List.find?_eq_none]
      intro c hcmem
      have hcr := List.mem_range'_1.mp hcmem
      have hrowlt : rr - 1 < values.length := by omega
      have hrowmem : values.getD (rr - 1) [] ∈ values := by
        rw [List.getD_eq_getElem values [] hrowlt]
        exact List.getElem_mem hrowlt
      have hclt : c - 1 < (values.getD (rr - 1) []).length := by omega
      have hcell : (values.getD (rr - 1) []).getD (c - 1) emptyStr ∈ values.getD (rr - 1) [] := by
        rw [List.getD_eq_getElem _ _ hclt]
        exact List.getElem_mem hclt
      have hall := (List.all_eq_true.mp hno) _ hrowmem
      have hcellall := (List.all_eq_true.mp hall) _ hcell
      simp only [Bool.not_eq_true'] at hcellall
      show ¬ is_total_qty_label (cellText values rr c) = true
      unfold cellText
      rw [hcellall]
      simp
    · rw [if_neg hr]
  have hnone : ([header_row, header_row - 1, header_row + 1].findSome? (fun rr =>
      if 1 ≤ rr ∧ rr ≤ values.length then
        (List.range' 1 (values.getD (rr - 1) []).length).find?
          (fun c => is_total_qty_label (cellText values rr c))
      else none)) = none :=
    List.findSome?_eq_none_iff.mpr (fun x _ => hrow x)
  rw [hnone]

theorem upbit_single_zone_col_eq (p a : ℚ) (la lh : ℕ) :
    upbit_single_zone_col p a la lh = if p ≤ a then la else lh := by
  unfold upbit_single_zone_col
  rcases le_or_lt p a with h | h
  · rw [if_neg (not_lt.mpr h), if_pos h]
  · rw [if_pos h, if_neg (not_le.mpr h)]

theorem run_core_fst (fills : List UFill) (seen : List String) (explicit_date : Bool) :
    (run_upbit_sync_once_core fills seen explicit_date).1 =
      sortBy fillTimeLe
        (if explicit_date then fills else fills.filter (fun f => !(seen.contains f.fill_id))) := rfl

theorem run_core_snd (fills : List UFill) (seen : List String) (explicit_date : Bool) :
    (run_upbit_sync_once_core fills seen explicit_date).2 =
      lastN 1000 (sortBy strLe
        ((seen ++ (run_upbit_sync_once_core fills seen explicit_date).1.map UFill.fill_id).dedup)) := rfl

theorem mem_forwarded_true (fills : List UFill) (seen : List String) (f : UFill) :
    f ∈ (run_upbit_sync_once_core fills seen true).1 ↔ f ∈ fills := by
  rw [run_core_fst, mem_sortBy, if_pos rfl]

theorem mem_forwarded_false (fills : List UFill) (seen : List String) (f : UFill) :
    f ∈ (run_upbit_sync_once_core fills seen false).1 ↔
      f ∈ fills ∧ seen.contains f.fill_id = false := by
  rw [run_core_fst, mem_sortBy, if_neg (by simp : ¬ (false = true)), List.mem_filter]
  simp only [Bool.not_eq_true']

theorem length_insertLe {α : Type} (le : α → α → Bool) (x : α) (l : List α) :
    (insertLe le x l).length = l.length + 1 := by
  induction l with
  | nil => rfl
  | cons y ys ih =>
    simp only [insertLe]
    by_cases h : le y x = true
    · rw [if_pos h]
      simp [ih]
    · rw [if_neg h]
      simp

theorem length_sortBy_fold {α : Type} (le : α → α → Bool) (l : List α) :
    ∀ acc : List α, (l.foldl (fun acc x => insertLe le x acc) acc).length =
      acc.length + l.length := by
  induction l with
  | nil => intro acc; simp
  | cons x xs ih =>
    intro acc
    rw [List.foldl_cons, ih, length_insertLe]
    simp only [List.length_cons]
    omega

theorem length_sortBy {α : Type} (le : α → α → Bool) (l : List α) :
    (sortBy le l).length = l.length := by
  unfold sortBy
  rw [length_sortBy_fold]
  simp

theorem ratio_full_guard_iff (amount half_round : ℚ) :
    (0.8 ≤ (if half_round > 0 then amount / (half_round * 2) else 0) ∧
      (if half_round > 0 then amount / (half_round * 2) else 0) ≤ 1.2) ↔
    (half_round > 0 ∧ 0.8 ≤ amount / (2 * half_round) ∧ amount / (2 * half_round) ≤ 1.2) := by
  by_cases hH : half_round > 0
  · rw [if_pos hH, mul_comm half_round 2]
    constructor
    · intro hx
      exact ⟨hH, hx.1, hx.2⟩
    · intro hx
      exact ⟨hx.2.1, hx.2.2⟩
  · rw [if_neg hH]
    constructor
    · intro hx
      exfalso
      have h08 : (0.8 : ℚ) ≤ 0 := hx.1
      norm_num at h08
    · intro hx
      exact absurd hx.1 hH

theorem ratio_half_guard_iff (amount half_round : ℚ) :
    (0.8 ≤ (if half_round > 0 then amount / half_round else 0) ∧
      (if half_round > 0 then amount / half_round else 0) ≤ 1.2) ↔
    (half_round > 0 ∧ 0.8 ≤ amount / half_round ∧ amount / half_round ≤ 1.2) := by
  by_cases hH : half_round > 0
  · rw [if_pos hH]
    constructor
    · intro hx
      exact ⟨hH, hx.1, hx.2⟩
    · intro hx
      exact ⟨hx.2.1, hx.2.2⟩
  · rw [if_neg hH]
    constructor
    · intro hx
      exfalso
      have h08 : (0.8 : ℚ) ≤ 0 := hx.1
      norm_num at h08
    · intro hx
      exact absurd hx.1 hH

/-- C1: For every exchange fill with amount `a`, quantity `q`, price `p` and
reference half-unit amount `H` read from the ledger: if `H > 0` and
`0.8 ≤ a/(2H) ≤ 1.2` the fill is dual-written (price and `q/2` into both zone
pairs on the same row); otherwise, if `H > 0` and `0.8 ≤ a/H ≤ 1.2`, a single
write of `p` and the full `q` is made into the zone chosen by comparing `p`
with the reference average price; otherwise (including every `H ≤ 0` case,
where both ratios are treated as 0) the fill is skipped and no ledger cell is
written.  Stated as equality between the embedding of
`process_upbit_fill_to_sheet` and the claim-side routing rule. -/
theorem upbit_fill_ratio_routing (values : Grid) (side : String)
    (price qty amount half_round avg_price : ℚ) (target : SDate) (target_text : String) :
    process_upbit_fill_to_sheet values side price qty amount half_round avg_price target
        target_text =
      process_upbit_fill_to_sheet_spec values side price qty amount half_round avg_price target
        target_text := by
  unfold process_upbit_fill_to_sheet process_upbit_fill_to_sheet_spec
  by_cases hside : side ≠ bidSide
  · rw [if_pos hside, if_pos hside]
  · rw [if_neg hside, if_neg hside]
    cases hh : find_header_row_and_columns values with
    | none => rfl
    | some anchor =>
      obtain ⟨header_row, date_col, loc_avg_col, loc_high_col⟩ := anchor
      dsimp only
      simp only [upbit_single_zone_col_eq]
      exact if_congr (ratio_full_guard_iff amount half_round) rfl
        (if_congr (ratio_half_guard_iff amount half_round) rfl rfl)

/-- C8 (amended): the per-trade derivation of `fetch_upbit_fills_for_date`
matches the amended rule: a market-style buy takes the exchange-reported spend
as amount only when that spend is positive, falling back to executed funds
otherwise, and always prices at `amount / qty`; other orders take executed
funds when positive, else `price × qty` when the reported price is positive;
trades with non-positive quantity or non-positive derived amount are
discarded. -/
theorem upbit_derive_fill_eq_amended (side ord_type : String)
    (qty executed_funds raw_price : ℚ) :
    upbit_derive_fill side ord_type qty executed_funds raw_price =
      upbit_derive_fill_amended side ord_type qty executed_funds raw_price := by
  unfold upbit_derive_fill upbit_derive_fill_amended
  by_cases hq : qty ≤ 0
  · simp [hq]
  · by_cases hmb : side = bidSide ∧ ord_type = ordTypePrice
    · by_cases hp : raw_price > 0
      · have hcond : side = bidSide ∧ ord_type = ordTypePrice ∧ raw_price > 0 :=
          ⟨hmb.1, hmb.2, hp⟩
        have ha : ¬ raw_price ≤ 0 := not_le.mpr hp
        simp [hq, hmb, hp, hcond, ha]
      · have hcond : ¬(side = bidSide ∧ ord_type = ordTypePrice ∧ raw_price > 0) := by tauto
        by_cases hf : executed_funds > 0
        · have ha : ¬ executed_funds ≤ 0 := not_le.mpr hf
          simp [hq, hmb, hp, hcond, hf, ha]
        · simp [hq, hmb, hp, hcond, hf]
    · have hcond : ¬(side = bidSide ∧ ord_type = ordTypePrice ∧ raw_price > 0) := by tauto
      by_cases hf : executed_funds > 0
      · have ha : ¬ executed_funds ≤ 0 := not_le.mpr hf
        simp [hq, hmb, hcond, hf, ha]
      · by_cases hp : raw_price > 0
        · by_cases ha : raw_price * qty ≤ 0
          · simp [hq, hmb, hcond, hf, hp, ha]
          · simp [hq, hmb, hcond, hf, hp, ha]
        · simp [hq, hmb, hcond, hf, hp]

/-- C3 witness: on a header-only sheet the first call creates row 2 by writing
the date text, and the second call returns the same row 2 with no write. -/
theorem find_or_create_date_row_idempotent_witness :
    find_or_create_date_row c3grid1 c3grid1 1 1 ⟨2025, 1, 2⟩ dateText20250102 =
      some (2, c3grid2, true) ∧
    find_or_create_date_row c3grid2 c3grid2 1 1 ⟨2025, 1, 2⟩ dateText20250102 =
      some (2, c3grid2, false) :=
  ⟨by decide,
   find_or_create_date_row_idempotent c3grid1 1 1 ⟨2025, 1, 2⟩ dateText20250102
     (by decide) (by decide) 2 c3grid2 true (by decide)⟩

/-- C2 counterexample: on the grid with the date label at (5,2), the zoneA
label at (5,4) and the zoneB label at (6,4), the anchor resolver returns the
anchor `{header_row 6, date_col 2, zoneA_col 4, zoneB_col 4}` with equal zone
columns — the claim says this anchor is rejected and that every returned
anchor has distinct zone columns. -/
theorem anchor_equal_zone_cols_counterexample :
    find_header_row_and_columns c2grid = some (6, 2, 4, 4) := by decide

/-- C2 (amended): the anchor resolver enforces no `zoneA_col ≠ zoneB_col`
invariant; on the cited fixture it returns the equal-column anchor
`{6, 2, 4, 4}`, and distinct columns arise only from the layout itself, as in
the fixture with the zoneB label at (6,8), which resolves to `{6, 2, 4, 8}`. -/
theorem anchor_zone_cols_can_coincide :
    find_header_row_and_columns c2grid = some (6, 2, 4, 4) ∧
    find_header_row_and_columns c2gridDistinct = some (6, 2, 4, 8) := by
  constructor <;> decide

/-- C4 counterexample: on `c4grid` the date-first phase finds both zone labels
from the date match at (1,1) — the zoneA label at row r+2 and the zoneB label
at column c+14 — and returns `(3, 1, 2, 15)`, while the claim-side search with
a 2-row/13-column window misses them and resolves the later header at row 4
instead, returning `(4, 1, 2, 3)`; so the claimed window bound is false. -/
theorem phase1_window_counterexample :
    phase1 c4grid = some (3, 1, 2, 15) ∧ phase1Spec c4grid 2 13 = some (4, 1, 2, 3) := by
  constructor <;> decide

/-- C5: on both the brokerage path and the exchange single-write path the zone
choice agrees, and (for distinct zone columns) the zoneA column is selected
exactly when `price ≤ reference average`, the zoneB column exactly when
`reference average < price`; in particular a tie selects zoneA. -/
theorem zone_classifier_le_avg (p a : ℚ) (la lh : ℕ) :
    brokerage_zone_col p a la lh = upbit_single_zone_col p a la lh ∧
      (la ≠ lh →
        ((brokerage_zone_col p a la lh = la ↔ p ≤ a) ∧
         (brokerage_zone_col p a la lh = lh ↔ a < p))) := by
  unfold brokerage_zone_col
  rw [upbit_single_zone_col_eq]
  refine ⟨rfl, ?_⟩
  intro hne
  rcases le_or_lt p a with h | h
  · rw [if_pos h]
    constructor
    · exact ⟨fun _ => h, fun _ => rfl⟩
    · constructor
      · intro hx
        exact absurd hx hne
      · intro hx
        exact absurd h (not_le.mpr hx)
  · rw [if_neg (not_le.mpr h)]
    constructor
    · constructor
      · intro hx
        exact absurd hx.symm hne
      · intro hx
        exact absurd hx (not_le.mpr h)
    · exact ⟨fun _ => h, fun _ => rfl⟩

/-- C5 witness: at the tie `price = reference = 10` with zone columns 4 and 8,
both paths select the zoneA column 4. -/
theorem zone_classifier_le_avg_witness :
    brokerage_zone_col 10 10 4 8 = upbit_single_zone_col 10 10 4 8 ∧
      (brokerage_zone_col 10 10 4 8 = 4 ↔ (10 : ℚ) ≤ 10) :=
  ⟨(zone_classifier_le_avg 10 10 4 8).1,
   ((zone_classifier_le_avg 10 10 4 8).2 (by decide)).1⟩

/-- C6: with an explicitly pinned target date every fetched matching fill is
forwarded regardless of the seen-set; without one, exactly the fills whose
identifier is absent from the seen-set are forwarded; consequently a second
reconciliation call over an overlapping list with no explicit date forwards no
fill whose identifier is present in the seen-set produced by the first call. -/
theorem run_upbit_dedup_correct :
    (∀ (fills : List UFill) (seen : List String) (f : UFill),
      f ∈ (run_upbit_sync_once_core fills seen true).1 ↔ f ∈ fills) ∧
    (∀ (fills : List UFill) (seen : List String) (f : UFill),
      f ∈ (run_upbit_sync_once_core fills seen false).1 ↔
        f ∈ fills ∧ seen.contains f.fill_id = false) ∧
    (∀ (fills1 fills2 : List UFill) (seen : List String) (f : UFill),
      f ∈ (run_upbit_sync_once_core fills2
            (run_upbit_sync_once_core fills1 seen false).2 false).1 →
        ((run_upbit_sync_once_core fills1 seen false).2.contains f.fill_id = false)) :=
  ⟨mem_forwarded_true,
   mem_forwarded_false,
   fun fills1 fills2 seen f hmem =>
     ((mem_forwarded_false fills2 (run_upbit_sync_once_core fills1 seen false).2 f).mp hmem).2⟩

/-- C6 witness: a fill already in the seen-set is still forwarded under an
explicit date, and a second no-explicit-date call forwards only fills whose
identifiers are not in the first call's seen-set output. -/
theorem run_upbit_dedup_correct_witness :
    wfillA ∈ (run_upbit_sync_once_core [wfillA] [wfillA.fill_id] true).1 ∧
    ((run_upbit_sync_once_core [wfillA] [] false).2.contains wfillB.fill_id = false) :=
  ⟨(run_upbit_dedup_correct.1 [wfillA] [wfillA.fill_id] wfillA).mpr (by decide),
   run_upbit_dedup_correct.2.2 [wfillA] [wfillA, wfillB] [] wfillB (by decide)⟩

/-- C7: after every reconciliation call the persisted seen-set has at most
1000 identifiers, is sorted in code-point (lexicographic) order without
duplicates, contains only identifiers from the previous seen-set or the
processed fills, and loses nothing as long as the distinct union fits the
1000 bound; the length bound holds for every input, so it holds no matter how
many identifiers have ever been reconciled. -/
theorem seen_set_bound (fills : List UFill) (seen : List String) (explicit_date : Bool) :
    ((run_upbit_sync_once_core fills seen explicit_date).2.length ≤ 1000) ∧
    List.Pairwise (fun a b => strLe a b = true)
      (run_upbit_sync_once_core fills seen explicit_date).2 ∧
    (run_upbit_sync_once_core fills seen explicit_date).2.Nodup ∧
    (∀ x ∈ (run_upbit_sync_once_core fills seen explicit_date).2,
      x ∈ seen ∨ ∃ f ∈ (run_upbit_sync_once_core fills seen explicit_date).1, x = f.fill_id) ∧
    (((seen ++ (run_upbit_sync_once_core fills seen explicit_date).1.map
        UFill.fill_id).dedup).length ≤ 1000 →
      ∀ x, (x ∈ seen ∨ ∃ f ∈ (run_upbit_sync_once_core fills seen explicit_date).1,
          x = f.fill_id) →
        x ∈ (run_upbit_sync_once_core fills seen explicit_date).2) := by
  refine ⟨?_, ?_, ?_, ?_, ?_⟩
  · rw [run_core_snd]
    unfold lastN
    rw [List.length_drop]
    omega
  · rw [run_core_snd]
    unfold lastN
    exact List.Pairwise.sublist (List.drop_sublist _ _)
      (pairwise_sortBy strLe_total strLe_trans _)
  · rw [run_core_snd]
    unfold lastN
    exact List.Nodup.sublist (List.drop_sublist _ _)
      (nodup_sortBy strLe _ (List.nodup_dedup _))
  · intro x hx
    rw [run_core_snd] at hx
    unfold lastN at hx
    have hx2 := (List.drop_sublist _ _).subset hx
    rw [mem_sortBy, List.mem_dedup, List.mem_append] at hx2
    rcases hx2 with h | h
    · exact Or.inl h
    · right
      obtain ⟨f, hf, hfe⟩ := List.mem_map.mp h
      exact ⟨f, hf, hfe.symm⟩
  · intro hlen x hx
    rw [run_core_snd]
    unfold lastN
    have hdrop : (sortBy strLe ((seen ++ (run_upbit_sync_once_core fills seen
        explicit_date).1.map UFill.fill_id).dedup)).length - 1000 = 0 := by
      rw [length_sortBy]
      omega
    rw [hdrop, List.drop_zero, mem_sortBy, List.mem_dedup, List.mem_append]
    rcases hx with h | h
    · exact Or.inl h
    · right
      obtain ⟨f, hf, hfe⟩ := h
      exact List.mem_map.mpr ⟨f, hf, hfe.symm⟩

/-- C7 witness: a concrete call whose seen-set output respects the bound and
retains the processed fill's identifier. -/
theorem seen_set_bound_witness :
    ((run_upbit_sync_once_core [wfillA] [] true).2.length ≤ 1000) ∧
    wfillA.fill_id ∈ (run_upbit_sync_once_core [wfillA] [] true).2 :=
  ⟨(seen_set_bound [wfillA] [] true).1,
   (seen_set_bound [wfillA] [] true).2.2.2.2 (by decide) wfillA.fill_id
     (Or.inr ⟨wfillA, by decide, rfl⟩)⟩

/-- C9 (amended): when the anchor cannot be found, processing an event fails
with a layout error before any cell write is performed (the `layoutError`
outcome carries no writes); a missing total-quantity label, however, does not
fail: the column resolution falls back to `loc_high_col + 4`. -/
theorem layout_error_before_writes :
    (∀ (values : Grid) (side : String) (p q avg : ℚ) (t : SDate) (txt : String),
      find_header_row_and_columns values = none → side = buySide → 0 ≤ q →
      process_fill_to_sheet values side p q avg t txt = .layoutError) ∧
    (∀ (values : Grid) (header_row loc_high_col : ℕ),
      values.all (fun row => row.all (fun cell => !is_total_qty_label cell)) = true →
      find_total_qty_column values header_row loc_high_col = loc_high_col + 4) := by
  constructor
  · intro values side p q avg t txt hh hside hq
    unfold process_fill_to_sheet
    rw [if_neg (fun hcon => hcon hside), if_neg (not_lt.mpr hq), hh]
  · intro values header_row loc_high_col hno
    exact find_total_qty_column_fallback values header_row loc_high_col hno

/-- C9 witness: an empty sheet has no anchor, so the event fails with a layout
error; with no total-quantity label in range the column falls back to
`loc_high_col + 4 = 7`. -/
theorem layout_error_before_writes_witness :
    process_fill_to_sheet [] buySide 10 0 20 ⟨2025, 1, 2⟩ dateText20250102 = .layoutError ∧
    find_total_qty_column [] 1 3 = 7 :=
  ⟨layout_error_before_writes.1 [] buySide 10 0 20 ⟨2025, 1, 2⟩ dateText20250102
     (by decide) rfl (by decide),
   layout_error_before_writes.2 [] 1 3 (by decide)⟩

/-- C9 counterexample: a grid with a valid anchor and no total-quantity label
anywhere does not fail with a layout error — processing succeeds using the
fallback column 7 and performs its writes, contradicting the claim that a
missing total-quantity column makes the event fail with the ledger untouched. -/
theorem total_qty_fallback_counterexample :
    c9grid.all (fun row => row.all (fun cell => !is_total_qty_label cell)) = true ∧
    process_fill_to_sheet c9grid buySide 10 1 20 ⟨2025, 1, 2⟩ dateText20250102 =
      .written 7 2 [⟨2, 1, .text dateText20250102⟩, ⟨2, 2, .num 10⟩, ⟨2, 3, .num 1⟩] := by
  constructor <;> decide

/-- C10: every raw exchange trade whose market's base asset is not BTC is
excluded from the fill list regardless of the configured market filter and
market-asset filter values. -/
theorem btc_only_enforced (market market_filter market_asset_filter side ord_type : String)
    (qty executed_funds raw_price : ℚ)
    (hne : upbit_base_asset market ≠ btc.toList) :
    upbit_row_to_fill market market_filter market_asset_filter side ord_type
      qty executed_funds raw_price = none := by
  have hpass : upbit_market_passes market market_filter market_asset_filter = false := by
    show (if upbit_base_asset market ≠ btc.toList then false
      else if market_filter ≠ emptyStr ∧ market ≠ market_filter then
        (if market_asset_filter ≠ emptyStr then
          (if upbit_base_asset market ≠ market_asset_filter.toList.map Char.toUpper then false
           else true)
        else false)
      else true) = false
    rw [if_pos hne]
  simp [upbit_row_to_fill, hpass]

/-- C10 witness: an ETH trade is excluded even when the configured market
filter and asset filter are set to match it exactly. -/
theorem btc_only_enforced_witness :
    upbit_base_asset mktKrwEth ≠ btc.toList ∧
    upbit_row_to_fill mktKrwEth mktKrwEth assetEth bidSide ordTypePrice 1 0 100 = none :=
  ⟨by decide,
   btc_only_enforced mktKrwEth mktKrwEth assetEth bidSide ordTypePrice 1 0 100 (by decide)⟩

/-- C8 counterexample: a market-style buy whose reported spend field is 0 but
whose executed funds are 5 with quantity 1: the code emits a fill with amount
5 (the funds fallback) and price 5, while the claim as stated derives
amount = reported spend = 0 and discards the trade. -/
theorem market_buy_spend_counterexample :
    upbit_derive_fill bidSide ordTypePrice 1 5 0 = some (5, 5) ∧
    upbit_derive_fill_claimed bidSide ordTypePrice 1 5 0 = none := by
  constructor
  · simp [upbit_derive_fill, bidSide, ordTypePrice]
  · simp [upbit_derive_fill_claimed]
